import Mathlib

/-!
Verification of the RedoxiTrack multi-object tracking engine against its
design specification. The repository ships the example driver
`examples/track_persons.cpp`; the engine itself (DeepSortTracker with
`begin_track` / `track` / `finish_track` / `get_all_open_targets`, the
motion model, affinity scorer, assignment solver, lifecycle manager and
event dispatcher) is declared in the RedoxiTrack library headers that are
not part of the sources here, so the engine is modelled from the spec
(sections 2-7) and the example event handler is embedded from
`track_persons.cpp` directly.
-/

namespace RedoxiTrack

/-- Modelled from the spec: a bounding box (x, y, width, height).  Spec
numerics are floating point; the model uses exact rationals. -/
structure BBox where
  x : ℚ
  y : ℚ
  w : ℚ
  h : ℚ
deriving DecidableEq, Repr, Inhabited

/-- Modelled from the spec: one observed object in one frame, with a
bounding box, an optional confidence score (here always present, default
irrelevant) and a frame index.  Appearance descriptors are optional in the
spec and omitted from the model. -/
structure Detection where
  bbox : BBox
  conf : ℚ
  frameIdx : Nat
deriving DecidableEq, Repr, Inhabited

/-- Modelled from the spec (section 7): a detection is valid when its
bounding box is non-degenerate (positive width and height); degenerate
detections are skipped, excluded from association. -/
def Detection.valid (d : Detection) : Bool :=
  decide (0 < d.bbox.w) && decide (0 < d.bbox.h)

/-- Modelled from the spec (section 4.4): target lifecycle states. -/
inductive TargetState
  | Tentative
  | Confirmed
  | Lost
  | Closed
deriving DecidableEq, Repr, Inhabited

/-- Modelled from the spec (section 4.1): per-target motion state, a
linear estimate of position and size with a velocity and a scalar
uncertainty grown by process noise on predict and shrunk on correct. -/
structure MotionState where
  box : BBox
  vx : ℚ
  vy : ℚ
  uncertainty : ℚ
deriving DecidableEq, Repr, Inhabited

/-- Modelled from the spec (section 3): a persistent tracked target with a
unique identifier, motion-model state, lifecycle state, a miss counter of
consecutive unmatched frames and a hit streak of consecutive associated
frames (used for Tentative to Confirmed promotion). -/
structure TrackTarget where
  id : Nat
  motion : MotionState
  tstate : TargetState
  missCount : Nat
  hitStreak : Nat
deriving DecidableEq, Repr, Inhabited

/-- A target's current estimated bounding box. -/
def TrackTarget.bbox (t : TrackTarget) : BBox := t.motion.box

/-- Modelled from the spec (section 6): the tracker configuration surface:
gating IoU threshold, confirmation frame count K, miss-count retirement
threshold, maximum concurrent target count, and motion-model noise terms. -/
structure TrackerParam where
  gatingIou : ℚ
  confirmK : Nat
  retireThreshold : Nat
  maxTargets : Nat
  processNoise : ℚ
  measurementNoise : ℚ
deriving DecidableEq, Repr, Inhabited

/-- Modelled from the spec (section 4.1): the predict step propagates the
position by the velocity and grows the uncertainty by the process noise. -/
def motion_predict (p : TrackerParam) (m : MotionState) : MotionState :=
  { m with
    box := { m.box with x := m.box.x + m.vx, y := m.box.y + m.vy }
    uncertainty := m.uncertainty + p.processNoise }

/-- Modelled from the spec (section 4.1): the correct step computes a gain
from the ratio of prediction uncertainty to measurement noise and blends
the predicted and observed state. -/
def motion_update (p : TrackerParam) (m : MotionState) (obs : BBox) : MotionState :=
  let g : ℚ := m.uncertainty / (m.uncertainty + p.measurementNoise)
  { box :=
      { x := m.box.x + g * (obs.x - m.box.x)
        y := m.box.y + g * (obs.y - m.box.y)
        w := m.box.w + g * (obs.w - m.box.w)
        h := m.box.h + g * (obs.h - m.box.h) }
    vx := g * (obs.x - m.box.x)
    vy := g * (obs.y - m.box.y)
    uncertainty := (1 - g) * m.uncertainty }

/-- Length of the overlap of two closed intervals given by start and length. -/
def interLen (a1 l1 a2 l2 : ℚ) : ℚ :=
  max 0 (min (a1 + l1) (a2 + l2) - max a1 a2)

/-- Modelled from the spec (section 4.2): normalized spatial overlap
(intersection over union) of two boxes. -/
def boxIou (a b : BBox) : ℚ :=
  let ix := interLen a.x a.w b.x b.w
  let iy := interLen a.y a.h b.y b.h
  let inter := ix * iy
  let uni := a.w * a.h + b.w * b.h - inter
  if uni = 0 then 0 else inter / uni

/-- Modelled from the spec (sections 4.2-4.3): the unconditionally
prohibitive cost given to a pair whose spatial overlap is below the gating
threshold, the sentinel value the solver must never keep in a match. -/
def PROHIBITIVE_COST : ℚ := 1000000000

/-- Modelled from the spec (section 4.2): the cost of pairing a predicted
box with a detection: 1 minus the IoU, hard-capped to the prohibitive
sentinel when the overlap is below the gating threshold.  Appearance
descriptors are optional in the spec and absent from the model, so the
appearance term is absent. -/
def pairCost (p : TrackerParam) (predicted : BBox) (d : Detection) : ℚ :=
  let iou := boxIou predicted d.bbox
  if iou < p.gatingIou then PROHIBITIVE_COST else 1 - iou

/-- Index of a detection in the minimum-cost position of a list of
remaining detection indices, ties broken by the earlier (lower) index. -/
def argminCost (f : Nat → ℚ) : List Nat → Option Nat
  | [] => none
  | j :: rest =>
    match argminCost f rest with
    | none => some j
    | some k => if f j ≤ f k then some j else some k

/-- Modelled from the spec (section 4.3): deterministic bipartite matching
by stable iteration order over target index then detection index: each
target index in order takes the remaining detection of minimum cost. -/
def greedyAssign (cost : Nat → Nat → ℚ) : List Nat → List Nat → List (Nat × Nat)
  | [], _ => []
  | i :: is, ds =>
    match argminCost (cost i) ds with
    | none => []
    | some j => (i, j) :: greedyAssign cost is (ds.erase j)

/-- Modelled from the spec (section 4.3): the assignment solver result:
matched (target, detection) index pairs, unmatched target indices and
unmatched detection indices. -/
structure AssignResult where
  matched : List (Nat × Nat)
  unmatchedTargets : List Nat
  unmatchedDetections : List Nat
deriving DecidableEq, Repr, Inhabited

/-- Modelled from the spec (section 4.3): the assignment solver: run the
matching over all target and detection indices, then post-filter any
selected pair whose cost equals the prohibitive sentinel, reclassifying
both of its sides as unmatched. -/
def solveAssignment (cost : Nat → Nat → ℚ) (n m : Nat) : AssignResult :=
  let raw := greedyAssign cost (List.range n) (List.range m)
  let keep := raw.filter fun pr => decide (cost pr.1 pr.2 ≠ PROHIBITIVE_COST)
  { matched := keep
    unmatchedTargets :=
      (List.range n).filter fun i => decide (i ∉ keep.map Prod.fst)
    unmatchedDetections :=
      (List.range m).filter fun j => decide (j ∉ keep.map Prod.snd) }

/-- Modelled from the spec (section 4.5): lifecycle events fired
synchronously by the engine within the frame-processing call. -/
inductive TrackEvent
  | targetCreated (targetId : Nat)
  | targetAssociated (targetId : Nat) (detIdx : Nat)
  | targetClosed (targetId : Nat)
deriving DecidableEq, Repr

/-- True exactly on association events. -/
def TrackEvent.isAssoc : TrackEvent → Bool
  | .targetAssociated _ _ => true
  | _ => false

/-- True exactly on target-closed events. -/
def TrackEvent.isClosed : TrackEvent → Bool
  | .targetClosed _ => true
  | _ => false

/-- Modelled from the spec (sections 4.6 and 7): the call-sequencing phase
of the tracker: before `begin_track`, between `begin_track` and
`finish_track`, and after `finish_track`. -/
inductive Phase
  | Uninit
  | Started
  | Finished
deriving DecidableEq, Repr, Inhabited

/-- Modelled from the spec (section 7): the error taxonomy relevant to the
facade: a sequencing error is fatal to the call and leaves state
unchanged. -/
inductive TrackError
  | SequencingError
deriving DecidableEq, Repr

/-- Modelled from the spec (sections 3 and 4.6): the tracker engine state:
the sequencing phase, the arena of all targets (closed targets kept,
marked Closed) and the next fresh identifier (monotonically increasing,
never reused). -/
structure TrackerState where
  phase : Phase
  targets : List TrackTarget
  nextId : Nat
deriving DecidableEq, Repr

/-- Result of one facade call: the new engine state, the events fired
during the call, and the sequencing error when the call was illegal. -/
structure StepResult where
  state : TrackerState
  events : List TrackEvent
  err : Option TrackError
deriving DecidableEq, Repr

/-- The tracker state before any call. -/
def initialState : TrackerState :=
  { phase := Phase.Uninit, targets := [], nextId := 0 }

/-- Modelled from the spec (section 4.6): the open targets of a state, the
targets whose lifecycle state is not Closed. -/
def openTargets (s : TrackerState) : List TrackTarget :=
  s.targets.filter fun t => decide (t.tstate ≠ TargetState.Closed)

/-- The retired targets of a state, kept in the arena marked Closed. -/
def closedOf (s : TrackerState) : List TrackTarget :=
  s.targets.filter fun t => decide (t.tstate = TargetState.Closed)

/-- Modelled from the spec (section 4.6): `get_all_open_targets` returns a
snapshot mapping target identifier to current target state, Closed
targets excluded; as a query it leaves the engine state unchanged, which
the model makes explicit by returning the state alongside the snapshot. -/
def get_all_open_targets (s : TrackerState) : TrackerState × List (Nat × TrackTarget) :=
  (s, (openTargets s).map fun t => (t.id, t))

/-- Modelled from the spec (section 4.4): a fresh Tentative target for a
detection, with zero miss count. -/
def newTarget (nid : Nat) (d : Detection) : TrackTarget :=
  { id := nid
    motion := { box := d.bbox, vx := 0, vy := 0, uncertainty := 1 }
    tstate := TargetState.Tentative
    missCount := 0
    hitStreak := 1 }

/-- Fresh targets for a list of detections, with consecutive identifiers
starting from the given one. -/
def mkNewTargets (nid : Nat) : List Detection → List TrackTarget
  | [] => []
  | d :: ds => newTarget nid d :: mkNewTargets (nid + 1) ds

/-- Modelled from the spec (section 4.4): lifecycle update of a matched
target: correct the motion model with the observation after prediction,
reset the miss counter to zero, extend the hit streak, and promote to
Confirmed once K consecutive associations are reached. -/
def applyMatched (p : TrackerParam) (t : TrackTarget) (d : Detection) : TrackTarget :=
  { t with
    motion := motion_update p (motion_predict p t.motion) d.bbox
    missCount := 0
    hitStreak := t.hitStreak + 1
    tstate :=
      if p.confirmK ≤ t.hitStreak + 1 then TargetState.Confirmed
      else TargetState.Tentative }

/-- Modelled from the spec (section 4.4): lifecycle update of an unmatched
open target: predict position from the motion model only, increment the
miss counter, reset the hit streak, and retire to Closed when the miss
counter exceeds the retirement threshold, otherwise mark Lost. -/
def applyUnmatched (p : TrackerParam) (t : TrackTarget) : TrackTarget :=
  { t with
    motion := motion_predict p t.motion
    missCount := t.missCount + 1
    hitStreak := 0
    tstate :=
      if p.retireThreshold < t.missCount + 1 then TargetState.Closed
      else TargetState.Lost }

/-- The detection index a target index was matched to, if any. -/
def lookupMatch : List (Nat × Nat) → Nat → Option Nat
  | [], _ => none
  | (a, b) :: rest, i => if a = i then some b else lookupMatch rest i

/-- Positional lifecycle update of the open targets: the target at open
index `k + position` is updated as matched when the solver matched that
index, as unmatched otherwise. -/
def updateOpenAux (p : TrackerParam) (dets : List Detection)
    (ms : List (Nat × Nat)) : Nat → List TrackTarget → List TrackTarget
  | _, [] => []
  | k, t :: ts =>
    (match lookupMatch ms k with
     | some j => applyMatched p t (dets.getD j default)
     | none => applyUnmatched p t) :: updateOpenAux p dets ms (k + 1) ts

/-- Modelled from the spec (section 4.2): the cost matrix of predicted
open-target boxes against detections, indexed positionally. -/
def costMatrix (p : TrackerParam) (opens : List TrackTarget)
    (dets : List Detection) : Nat → Nat → ℚ :=
  fun i j =>
    pairCost p (motion_predict p (opens.getD i default).motion).box
      (dets.getD j default)

/-- Modelled from the spec (sections 4.2-4.3): the association step of a
frame: solve the assignment over the tracker's cost matrix. -/
def trackAssoc (p : TrackerParam) (opens : List TrackTarget)
    (dets : List Detection) : AssignResult :=
  solveAssignment (costMatrix p opens dets) opens.length dets.length

/-- Insert a detection into a list kept in descending confidence order. -/
def insertByConf (d : Detection) : List Detection → List Detection
  | [] => [d]
  | e :: es => if e.conf < d.conf then d :: e :: es else e :: insertByConf d es

/-- Sort detections by descending confidence. -/
def sortByConfDesc : List Detection → List Detection
  | [] => []
  | d :: ds => insertByConf d (sortByConfDesc ds)

/-- Modelled from the spec (section 4.4): new-target admission under the
maximum concurrent target count: unmatched detections are considered in
descending confidence order and the lowest-priority candidates beyond the
remaining capacity are dropped. -/
def admitNewDetections (p : TrackerParam) (openCount : Nat)
    (cands : List Detection) : List Detection :=
  (sortByConfDesc cands).take (p.maxTargets - openCount)

/-- The sequencing-error result: fatal to the call, no state change, no
event fired. -/
def seqError (s : TrackerState) : StepResult :=
  { state := s, events := [], err := some TrackError.SequencingError }

/-- Modelled from the spec (sections 4.4 and 4.6): `begin_track`
initializes tracker state from a first frame: it must be the first call
(sequencing error otherwise); degenerate detections are skipped; every
valid detection becomes a new Tentative target with a fresh identifier,
and a created event is fired for each. -/
def begin_track (p : TrackerParam) (s : TrackerState)
    (dets : List Detection) : StepResult :=
  if s.phase = Phase.Uninit then
    let vdets := dets.filter Detection.valid
    let news := mkNewTargets s.nextId vdets
    { state :=
        { phase := Phase.Started
          targets := news
          nextId := s.nextId + vdets.length }
      events := news.map fun t => TrackEvent.targetCreated t.id
      err := none }
  else seqError s

/-- The valid detections of a frame; degenerate ones are skipped. -/
def validOf (dets : List Detection) : List Detection :=
  dets.filter Detection.valid

/-- The matched (target index, detection index) pairs of a `track` frame. -/
def trackMatches (p : TrackerParam) (s : TrackerState)
    (dets : List Detection) : List (Nat × Nat) :=
  (trackAssoc p (openTargets s) (validOf dets)).matched

/-- The open targets after the lifecycle update of a `track` frame. -/
def trackOpensUpdated (p : TrackerParam) (s : TrackerState)
    (dets : List Detection) : List TrackTarget :=
  updateOpenAux p (validOf dets) (trackMatches p s dets) 0 (openTargets s)

/-- The unmatched detections admitted as new targets in a `track` frame. -/
def trackAdmitted (p : TrackerParam) (s : TrackerState)
    (dets : List Detection) : List Detection :=
  admitNewDetections p
    ((trackOpensUpdated p s dets).filter
      (fun t => decide (t.tstate ≠ TargetState.Closed))).length
    ((trackAssoc p (openTargets s) (validOf dets)).unmatchedDetections.map
      fun j => (validOf dets).getD j default)

/-- The new Tentative targets spawned by a `track` frame. -/
def trackNewTargets (p : TrackerParam) (s : TrackerState)
    (dets : List Detection) : List TrackTarget :=
  mkNewTargets s.nextId (trackAdmitted p s dets)

/-- The successful branch of `track`: predict, associate, update matched
and unmatched open targets, spawn admitted new targets for unmatched
detections, and fire the corresponding events.  Retired (Closed) targets
stay in the arena after the updated open targets. -/
def track_go (p : TrackerParam) (s : TrackerState)
    (dets : List Detection) : StepResult :=
  { state :=
      { phase := Phase.Started
        targets := trackOpensUpdated p s dets ++ closedOf s
          ++ trackNewTargets p s dets
        nextId := s.nextId + (trackAdmitted p s dets).length }
    events :=
      ((trackMatches p s dets).map fun pr =>
        TrackEvent.targetAssociated
          ((openTargets s).getD pr.1 default).id pr.2)
      ++ ((trackNewTargets p s dets).map fun t =>
            TrackEvent.targetCreated t.id)
      ++ (((trackOpensUpdated p s dets).filter
            (fun t => decide (t.tstate = TargetState.Closed))).map
            fun t => TrackEvent.targetClosed t.id)
    err := none }

/-- Modelled from the spec (sections 2 and 4.6): `track` processes one
subsequent frame; calling it before `begin_track` or after `finish_track`
is a sequencing error. -/
def track (p : TrackerParam) (s : TrackerState)
    (dets : List Detection) : StepResult :=
  if s.phase = Phase.Started then track_go p s dets else seqError s

/-- A target forcibly moved to the Closed lifecycle state. -/
def closeTarget (t : TrackTarget) : TrackTarget :=
  { t with tstate := TargetState.Closed }

/-- Modelled from the spec (sections 4.4 and 4.6): `finish_track` forcibly
closes all remaining open targets, firing a closed event for each, and
must be the last call: any later call is a sequencing error. -/
def finish_track (p : TrackerParam) (s : TrackerState) : StepResult :=
  if s.phase = Phase.Started then
    { state :=
        { phase := Phase.Finished
          targets := s.targets.map closeTarget
          nextId := s.nextId }
      events := (openTargets s).map fun t => TrackEvent.targetClosed t.id
      err := none }
  else seqError s

/-- The tracker states reachable from the initial state by any sequence of
facade calls, legal or not (illegal calls leave the state unchanged). -/
inductive Reachable (p : TrackerParam) : TrackerState → Prop
  | init : Reachable p initialState
  | begin_step (s : TrackerState) (dets : List Detection) :
      Reachable p s → Reachable p (begin_track p s dets).state
  | track_step (s : TrackerState) (dets : List Detection) :
      Reachable p s → Reachable p (track p s dets).state
  | finish_step (s : TrackerState) :
      Reachable p s → Reachable p (finish_track p s).state

/-- Modelled from the spec (section 4.5): handler return codes signal
whether the event is considered handled; `None` signals not handled, so
later handlers are not short-circuited.  In the source the handlers
return these codes as `int`. -/
inductive EventHandlerResultTypes
  | None
  | Handled
deriving DecidableEq, Repr

/-- Event payload of association and creation events as received by
handlers: the detection and the target involved (shared pointers in the
source, modelled by their identifiers). -/
structure TargetAssociationData where
  m_detection : Nat
  m_target : Nat
deriving DecidableEq, Repr

/-- Event payload of target-closed events as received by handlers. -/
structure TargetClosedData where
  m_target : Nat
deriving DecidableEq, Repr

/-- Insert-or-overwrite on an association list, the effect of assigning
through `std::map::operator[]`. -/
def mapAssign : List (Nat × Nat) → Nat → Nat → List (Nat × Nat)
  | [], k, v => [(k, v)]
  | (a, b) :: rest, k, v =>
    if a = k then (k, v) :: rest else (a, b) :: mapAssign rest k v

/-- Lookup on an association list. -/
def mapFind : List (Nat × Nat) → Nat → Option Nat
  | [], _ => none
  | (a, b) :: rest, k => if a = k then some b else mapFind rest k

/-- Embedded from `examples/track_persons.cpp`: the example event handler
collecting tracking events: a map detection to target for created events,
a map detection to target for association events, and a vector of closed
targets. -/
structure ExampleTrackEventHandler where
  m_det2target_create : List (Nat × Nat)
  m_det2target_assiciate : List (Nat × Nat)
  m_target_closed : List Nat
deriving DecidableEq, Repr

/-- Embedded from `examples/track_persons.cpp`: on an association event
the handler records the detection-to-target pair into
`m_det2target_assiciate` and returns `EventHandlerResultTypes::None`. -/
def evt_target_association_after (h : ExampleTrackEventHandler)
    (evt : TargetAssociationData) :
    ExampleTrackEventHandler × EventHandlerResultTypes :=
  ({ h with
      m_det2target_assiciate :=
        mapAssign h.m_det2target_assiciate evt.m_detection evt.m_target },
   EventHandlerResultTypes.None)

/-- Embedded from `examples/track_persons.cpp`: on a created event the
handler records the detection-to-target pair into `m_det2target_create`
and returns `EventHandlerResultTypes::None`. -/
def evt_target_created_after (h : ExampleTrackEventHandler)
    (evt : TargetAssociationData) :
    ExampleTrackEventHandler × EventHandlerResultTypes :=
  ({ h with
      m_det2target_create :=
        mapAssign h.m_det2target_create evt.m_detection evt.m_target },
   EventHandlerResultTypes.None)

/-- Embedded from `examples/track_persons.cpp`: on a closed event the
handler pushes the target onto `m_target_closed` and returns
`EventHandlerResultTypes::None`. -/
def evt_target_closed_after (h : ExampleTrackEventHandler)
    (evt : TargetClosedData) :
    ExampleTrackEventHandler × EventHandlerResultTypes :=
  ({ h with m_target_closed := h.m_target_closed ++ [evt.m_target] },
   EventHandlerResultTypes.None)

/-- Embedded from `examples/track_persons.cpp`: `clear` empties all three
containers. -/
def ExampleTrackEventHandler.clear (_h : ExampleTrackEventHandler) :
    ExampleTrackEventHandler :=
  { m_det2target_create := []
    m_det2target_assiciate := []
    m_target_closed := [] }

/-- The lifecycle invariant of one target under a given phase: the target
is Closed exactly when its miss counter has exceeded the retirement
threshold or the tracker has been finished. -/
def phaseTargetInv (p : TrackerParam) (ph : Phase) (t : TrackTarget) : Prop :=
  t.tstate = TargetState.Closed ↔
    (p.retireThreshold < t.missCount ∨ ph = Phase.Finished)

/-- Concrete configuration used to evaluate the model on sample inputs. -/
def sampleParam : TrackerParam :=
  { gatingIou := 1/10
    confirmK := 3
    retireThreshold := 2
    maxTargets := 100
    processNoise := 1
    measurementNoise := 1 }

/-- Concrete valid detection at a given horizontal offset. -/
def sampleDet (q : ℚ) : Detection :=
  { bbox := { x := q, y := 0, w := 4, h := 4 }, conf := 1, frameIdx := 0 }

/-- Concrete started tracker state holding two open targets. -/
def sampleStarted : TrackerState :=
  (begin_track sampleParam initialState [sampleDet 0, sampleDet 100]).state

/-- Concrete finished tracker state. -/
def sampleFinished : TrackerState :=
  (finish_track sampleParam sampleStarted).state

/-- Cost matrix that is prohibitive everywhere. -/
def allProhibitive : Nat → Nat → ℚ := fun _ _ => PROHIBITIVE_COST

/-! Helper lemmas. -/

theorem mapFind_mapAssign (m : List (Nat × Nat)) (k v : Nat) :
    mapFind (mapAssign m k v) k = some v := by
  induction m with
  | nil => simp [mapAssign, mapFind]
  | cons a rest ih =>
    obtain ⟨a1, a2⟩ := a
    by_cases hk : a1 = k <;> simp [mapAssign, mapFind, hk, ih]

theorem filter_open_map_close (l : List TrackTarget) :
    (l.map closeTarget).filter
      (fun t => decide (t.tstate ≠ TargetState.Closed)) = [] := by
  induction l with
  | nil => rfl
  | cons a l ih => simp [closeTarget, List.filter_cons, ih]

theorem mkNewTargets_length (nid : Nat) (ds : List Detection) :
    (mkNewTargets nid ds).length = ds.length := by
  induction ds generalizing nid with
  | nil => rfl
  | cons d ds ih => simp [mkNewTargets, ih]

theorem mem_mkNewTargets (nid : Nat) (ds : List Detection) (t : TrackTarget)
    (ht : t ∈ mkNewTargets nid ds) :
    t.tstate = TargetState.Tentative ∧ t.missCount = 0 ∧ nid ≤ t.id := by
  induction ds generalizing nid with
  | nil => cases ht
  | cons d ds ih =>
    rcases List.mem_cons.mp ht with rfl | hmem
    · exact ⟨rfl, rfl, Nat.le_refl _⟩
    · rcases ih (nid + 1) hmem with ⟨h1, h2, h3⟩
      exact ⟨h1, h2, by omega⟩

theorem mkNewTargets_ids_nodup (nid : Nat) (ds : List Detection) :
    ((mkNewTargets nid ds).map TrackTarget.id).Nodup := by
  induction ds generalizing nid with
  | nil => simp [mkNewTargets]
  | cons d ds ih =>
    simp only [mkNewTargets, List.map_cons, List.nodup_cons]
    refine ⟨fun hmem => ?_, ih (nid + 1)⟩
    rcases List.mem_map.mp hmem with ⟨t, ht, hid⟩
    have hge := (mem_mkNewTargets _ _ _ ht).2.2
    simp only [newTarget] at hid
    omega

theorem argminCost_mem (f : Nat → ℚ) (ds : List Nat) (j : Nat)
    (h : argminCost f ds = some j) : j ∈ ds := by
  induction ds with
  | nil => exact absurd h (by simp [argminCost])
  | cons a rest ih =>
    simp only [argminCost] at h
    cases hr : argminCost f rest with
    | none =>
      rw [hr] at h
      simp only [Option.some.injEq] at h
      exact h ▸ List.mem_cons_self a rest
    | some k =>
      rw [hr] at h
      by_cases hle : f a ≤ f k
      · simp only [if_pos hle, Option.some.injEq] at h
        exact h ▸ List.mem_cons_self a rest
      · simp only [if_neg hle, Option.some.injEq] at h
        subst h
        exact List.mem_cons_of_mem a (ih hr)

theorem greedyAssign_fst_sublist (cost : Nat → Nat → ℚ) (ts ds : List Nat) :
    ((greedyAssign cost ts ds).map Prod.fst).Sublist ts := by
  induction ts generalizing ds with
  | nil => simp [greedyAssign]
  | cons i is ih =>
    simp only [greedyAssign]
    cases hr : argminCost (cost i) ds with
    | none => simp
    | some j =>
      simp only [List.map_cons]
      exact List.Sublist.cons₂ i (ih (ds.erase j))

theorem greedyAssign_snd_mem (cost : Nat → Nat → ℚ) (ts ds : List Nat)
    (pr : Nat × Nat) (h : pr ∈ greedyAssign cost ts ds) : pr.2 ∈ ds := by
  induction ts generalizing ds with
  | nil => exact absurd h (by simp [greedyAssign])
  | cons i is ih =>
    simp only [greedyAssign] at h
    cases hr : argminCost (cost i) ds with
    | none => rw [hr] at h; cases h
    | some j =>
      rw [hr] at h
      rcases List.mem_cons.mp h with rfl | hmem
      · exact argminCost_mem _ _ _ hr
      · exact List.mem_of_mem_erase (ih _ hmem)

theorem greedyAssign_snd_nodup (cost : Nat → Nat → ℚ) (ts ds : List Nat)
    (hd : ds.Nodup) : ((greedyAssign cost ts ds).map Prod.snd).Nodup := by
  induction ts generalizing ds with
  | nil => simp [greedyAssign]
  | cons i is ih =>
    simp only [greedyAssign]
    cases hr : argminCost (cost i) ds with
    | none => simp
    | some j =>
      simp only [List.map_cons, List.nodup_cons]
      refine ⟨fun hmem => ?_, ih _ (hd.erase j)⟩
      rcases List.mem_map.mp hmem with ⟨pr, hpr, hsnd⟩
      have hin : pr.2 ∈ ds.erase j := greedyAssign_snd_mem _ _ _ _ hpr
      rw [hsnd] at hin
      exact ((List.Nodup.mem_erase_iff hd).mp hin).1 rfl

theorem greedyAssign_fst_nodup (cost : Nat → Nat → ℚ) (ts ds : List Nat)
    (ht : ts.Nodup) : ((greedyAssign cost ts ds).map Prod.fst).Nodup :=
  List.Nodup.sublist (greedyAssign_fst_sublist cost ts ds) ht

theorem eq_snd_of_nodup_fst (l : List (Nat × Nat))
    (hn : (l.map Prod.fst).Nodup) (a b c : Nat)
    (h1 : (a, b) ∈ l) (h2 : (a, c) ∈ l) : b = c := by
  induction l with
  | nil => cases h1
  | cons x xs ih =>
    simp only [List.map_cons, List.nodup_cons] at hn
    rcases List.mem_cons.mp h1 with hx1 | m1
    · rcases List.mem_cons.mp h2 with hx2 | m2
      · rw [← hx1] at hx2
        exact (Prod.mk.injEq _ _ _ _ ▸ hx2).2.symm
      · exfalso
        exact hn.1 (hx1 ▸ List.mem_map.mpr ⟨(a, c), m2, rfl⟩)
    · rcases List.mem_cons.mp h2 with hx2 | m2
      · exfalso
        exact hn.1 (hx2 ▸ List.mem_map.mpr ⟨(a, b), m1, rfl⟩)
      · exact ih hn.2 m1 m2

theorem eq_fst_of_nodup_snd (l : List (Nat × Nat))
    (hn : (l.map Prod.snd).Nodup) (a b c : Nat)
    (h1 : (a, c) ∈ l) (h2 : (b, c) ∈ l) : a = b := by
  induction l with
  | nil => cases h1
  | cons x xs ih =>
    simp only [List.map_cons, List.nodup_cons] at hn
    rcases List.mem_cons.mp h1 with hx1 | m1
    · rcases List.mem_cons.mp h2 with hx2 | m2
      · rw [← hx1] at hx2
        exact (Prod.mk.injEq _ _ _ _ ▸ hx2).1.symm
      · exfalso
        exact hn.1 (hx1 ▸ List.mem_map.mpr ⟨(b, c), m2, rfl⟩)
    · rcases List.mem_cons.mp h2 with hx2 | m2
      · exfalso
        exact hn.1 (hx2 ▸ List.mem_map.mpr ⟨(a, c), m1, rfl⟩)
      · exact ih hn.2 m1 m2

theorem solveAssignment_matched_nodup (cost : Nat → Nat → ℚ) (n m : Nat) :
    ((solveAssignment cost n m).matched.map Prod.fst).Nodup ∧
      ((solveAssignment cost n m).matched.map Prod.snd).Nodup := by
  have hsub : (solveAssignment cost n m).matched.Sublist
      (greedyAssign cost (List.range n) (List.range m)) :=
    List.filter_sublist _
  exact ⟨List.Nodup.sublist (hsub.map Prod.fst)
      (greedyAssign_fst_nodup cost _ _ (List.nodup_range n)),
    List.Nodup.sublist (hsub.map Prod.snd)
      (greedyAssign_snd_nodup cost _ _ (List.nodup_range m))⟩

theorem filter_isAssoc_created (l : List TrackTarget) :
    (l.map (fun t => TrackEvent.targetCreated t.id)).filter
      TrackEvent.isAssoc = [] := by
  induction l with
  | nil => rfl
  | cons a l ih => simp [List.filter_cons, TrackEvent.isAssoc, ih]

/-! Claim theorems. -/

/-- C1: the association step of every `track` frame yields a partial
bijection: no target index appears in two matched pairs and no detection
index appears in two matched pairs; and `begin_track` (the first frame)
fires no association event at all. -/
theorem assoc_partial_bijection (p : TrackerParam) (opens : List TrackTarget)
    (dets : List Detection) (s : TrackerState) :
    (((trackAssoc p opens dets).matched.map Prod.fst).Nodup ∧
      ((trackAssoc p opens dets).matched.map Prod.snd).Nodup) ∧
    (begin_track p s dets).events.filter TrackEvent.isAssoc = [] := by
  refine ⟨solveAssignment_matched_nodup _ _ _, ?_⟩
  by_cases h : s.phase = Phase.Uninit
  · simp [begin_track, h, filter_isAssoc_created]
  · simp [begin_track, h, seqError]

/-- C6: the assignment solver never returns a matched pair whose cost is
the prohibitive sentinel: a sentinel-cost pair selected by the matching
step is post-filtered out of the matches and both its target index and
its detection index are reported unmatched. -/
theorem solver_excludes_prohibitive (cost : Nat → Nat → ℚ) (n m i j : Nat)
    (hmem : (i, j) ∈ greedyAssign cost (List.range n) (List.range m))
    (hc : cost i j = PROHIBITIVE_COST) :
    ((i, j) ∉ (solveAssignment cost n m).matched) ∧
    i ∈ (solveAssignment cost n m).unmatchedTargets ∧
    j ∈ (solveAssignment cost n m).unmatchedDetections ∧
    (∀ pr ∈ (solveAssignment cost n m).matched,
      cost pr.1 pr.2 ≠ PROHIBITIVE_COST) := by
  have hkeep : (solveAssignment cost n m).matched =
      (greedyAssign cost (List.range n) (List.range m)).filter
        (fun pr => decide (cost pr.1 pr.2 ≠ PROHIBITIVE_COST)) := rfl
  have hnotin : (i, j) ∉ (solveAssignment cost n m).matched := by
    intro hin
    rw [hkeep] at hin
    have := (List.mem_filter.mp hin).2
    simp [hc] at this
  have hfst_nodup := greedyAssign_fst_nodup cost (List.range n)
    (List.range m) (List.nodup_range n)
  have hsnd_nodup := greedyAssign_snd_nodup cost (List.range n)
    (List.range m) (List.nodup_range m)
  have hi_range : i ∈ List.range n := by
    have hmap : i ∈ (greedyAssign cost (List.range n)
        (List.range m)).map Prod.fst :=
      List.mem_map.mpr ⟨(i, j), hmem, rfl⟩
    exact (greedyAssign_fst_sublist cost _ _).subset hmap
  have hj_range : j ∈ List.range m :=
    greedyAssign_snd_mem cost _ _ (i, j) hmem
  have hi_not : i ∉ (solveAssignment cost n m).matched.map Prod.fst := by
    intro hin
    rcases List.mem_map.mp hin with ⟨pr, hpr, hfst⟩
    obtain ⟨p1, p2⟩ := pr
    cases hfst
    have hpr_raw : (p1, p2) ∈ greedyAssign cost (List.range n)
        (List.range m) := List.mem_of_mem_filter (hkeep ▸ hpr)
    have : p2 = j := eq_snd_of_nodup_fst _ hfst_nodup p1 p2 j hpr_raw hmem
    exact hnotin (this ▸ hpr)
  have hj_not : j ∉ (solveAssignment cost n m).matched.map Prod.snd := by
    intro hin
    rcases List.mem_map.mp hin with ⟨pr, hpr, hsnd⟩
    obtain ⟨p1, p2⟩ := pr
    cases hsnd
    have hpr_raw : (p1, p2) ∈ greedyAssign cost (List.range n)
        (List.range m) := List.mem_of_mem_filter (hkeep ▸ hpr)
    have : p1 = i := eq_fst_of_nodup_snd _ hsnd_nodup p1 i p2 hpr_raw hmem
    exact hnotin (this ▸ hpr)
  refine ⟨hnotin, ?_, ?_, ?_⟩
  · exact List.mem_filter.mpr ⟨hi_range, decide_eq_true hi_not⟩
  · exact List.mem_filter.mpr ⟨hj_range, decide_eq_true hj_not⟩
  · intro pr hpr
    rw [hkeep] at hpr
    have := (List.mem_filter.mp hpr).2
    simpa using this

/-- C9: `get_all_open_targets` is a pure query: it leaves the tracker
state unchanged, and calling it twice with no intervening mutating call
returns identical snapshots. -/
theorem get_all_open_targets_idempotent (s : TrackerState) :
    (get_all_open_targets s).1 = s ∧
      (get_all_open_targets ((get_all_open_targets s).1)).2 =
        (get_all_open_targets s).2 :=
  ⟨rfl, rfl⟩

/-- C8: the snapshot returned by `get_all_open_targets` only contains
targets whose lifecycle state is Tentative, Confirmed or Lost; a Closed
target never appears in it. -/
theorem open_snapshot_excludes_closed (s : TrackerState) (pr : Nat × TrackTarget)
    (hmem : pr ∈ (get_all_open_targets s).2) :
    pr.2.tstate ≠ TargetState.Closed ∧
      (pr.2.tstate = TargetState.Tentative ∨
        pr.2.tstate = TargetState.Confirmed ∨
        pr.2.tstate = TargetState.Lost) := by
  simp only [get_all_open_targets] at hmem
  rcases List.mem_map.mp hmem with ⟨t, ht, rfl⟩
  have h2 := List.mem_filter.mp ht
  have hne : t.tstate ≠ TargetState.Closed := by simpa using h2.2
  refine ⟨hne, ?_⟩
  cases h : t.tstate <;> simp_all

/-- C4: with the tracker started, `finish_track` fires exactly one
target-closed event per open target (one event for each of the N open
targets) and the subsequent `get_all_open_targets` snapshot is empty. -/
theorem finish_track_closes_all (p : TrackerParam) (s : TrackerState)
    (h : s.phase = Phase.Started) :
    (finish_track p s).events =
      (openTargets s).map (fun t => TrackEvent.targetClosed t.id) ∧
    (finish_track p s).events.length = (openTargets s).length ∧
    (get_all_open_targets (finish_track p s).state).2 = [] := by
  refine ⟨by simp [finish_track, h], by simp [finish_track, h], ?_⟩
  simp [finish_track, h, get_all_open_targets, openTargets, closeTarget,
    filter_open_map_close]

/-- C7: calling `track` before `begin_track` or after `finish_track`, and
calling `begin_track` or `finish_track` after `finish_track`, fails with a
sequencing error that leaves the engine state unchanged and fires no
event. -/
theorem sequencing_error_state_unchanged (p : TrackerParam)
    (s : TrackerState) (dets : List Detection)
    (h : s.phase = Phase.Uninit ∨ s.phase = Phase.Finished) :
    ((track p s dets).state = s ∧ (track p s dets).events = [] ∧
      (track p s dets).err = some TrackError.SequencingError) ∧
    (s.phase = Phase.Finished →
      ((begin_track p s dets).state = s ∧
        (begin_track p s dets).events = [] ∧
        (begin_track p s dets).err = some TrackError.SequencingError) ∧
      ((finish_track p s).state = s ∧ (finish_track p s).events = [] ∧
        (finish_track p s).err = some TrackError.SequencingError)) := by
  have hns : s.phase ≠ Phase.Started := by
    rcases h with h | h <;> simp [h]
  refine ⟨by simp [track, hns, seqError], fun hf => ?_⟩
  have hnu : s.phase ≠ Phase.Uninit := by simp [hf]
  exact ⟨by simp [begin_track, hnu, seqError],
    by simp [finish_track, hns, seqError]⟩

/-- C10: each of the three overridden handlers of
`ExampleTrackEventHandler` records the event into its corresponding
container, touches no other container, and returns
`EventHandlerResultTypes::None`, never signalling the event as handled. -/
theorem example_handlers_record_and_return_none
    (h : ExampleTrackEventHandler) (evt : TargetAssociationData)
    (evtc : TargetClosedData) :
    ((evt_target_association_after h evt).2 = EventHandlerResultTypes.None ∧
      mapFind (evt_target_association_after h evt).1.m_det2target_assiciate
        evt.m_detection = some evt.m_target ∧
      (evt_target_association_after h evt).1.m_det2target_create =
        h.m_det2target_create ∧
      (evt_target_association_after h evt).1.m_target_closed =
        h.m_target_closed) ∧
    ((evt_target_created_after h evt).2 = EventHandlerResultTypes.None ∧
      mapFind (evt_target_created_after h evt).1.m_det2target_create
        evt.m_detection = some evt.m_target ∧
      (evt_target_created_after h evt).1.m_det2target_assiciate =
        h.m_det2target_assiciate ∧
      (evt_target_created_after h evt).1.m_target_closed =
        h.m_target_closed) ∧
    ((evt_target_closed_after h evtc).2 = EventHandlerResultTypes.None ∧
      evtc.m_target ∈ (evt_target_closed_after h evtc).1.m_target_closed ∧
      (evt_target_closed_after h evtc).1.m_det2target_create =
        h.m_det2target_create ∧
      (evt_target_closed_after h evtc).1.m_det2target_assiciate =
        h.m_det2target_assiciate) :=
  ⟨⟨rfl, mapFind_mapAssign _ _ _, rfl, rfl⟩,
   ⟨rfl, mapFind_mapAssign _ _ _, rfl, rfl⟩,
   ⟨rfl, by simp [evt_target_closed_after], rfl, rfl⟩⟩

/-- C5: on a first frame of valid detections, `begin_track` creates one
Tentative target per detection, with pairwise distinct identifiers, and
`get_all_open_targets` afterwards returns all of them. -/
theorem begin_track_creates_all (p : TrackerParam) (s : TrackerState)
    (dets : List Detection) (h : s.phase = Phase.Uninit)
    (hv : ∀ d ∈ dets, Detection.valid d = true) :
    (begin_track p s dets).state.targets.length = dets.length ∧
    (∀ t ∈ (begin_track p s dets).state.targets,
        t.tstate = TargetState.Tentative) ∧
    ((begin_track p s dets).state.targets.map TrackTarget.id).Nodup ∧
    (get_all_open_targets (begin_track p s dets).state).2 =
      (begin_track p s dets).state.targets.map (fun t => (t.id, t)) ∧
    (get_all_open_targets (begin_track p s dets).state).2.length =
      dets.length := by
  have hfilter : dets.filter Detection.valid = dets :=
    List.filter_eq_self.mpr hv
  have hstate : (begin_track p s dets).state.targets =
      mkNewTargets s.nextId dets := by
    simp [begin_track, h, hfilter]
  have hopen : openTargets (begin_track p s dets).state =
      mkNewTargets s.nextId dets := by
    rw [openTargets, hstate]
    refine List.filter_eq_self.mpr fun t ht => ?_
    have := (mem_mkNewTargets _ _ _ ht).1
    simp [this]
  refine ⟨?_, ?_, ?_, ?_, ?_⟩
  · rw [hstate, mkNewTargets_length]
  · intro t ht
    rw [hstate] at ht
    exact (mem_mkNewTargets _ _ _ ht).1
  · rw [hstate]
    exact mkNewTargets_ids_nodup _ _
  · simp only [get_all_open_targets, hopen, hstate]
  · simp [get_all_open_targets, hopen, mkNewTargets_length]

/-! Witnesses evaluating the claims on the sample inputs. -/

theorem finish_track_closes_all_witness :
    sampleStarted.phase = Phase.Started ∧
    ((finish_track sampleParam sampleStarted).events =
      (openTargets sampleStarted).map
        (fun t => TrackEvent.targetClosed t.id) ∧
    (finish_track sampleParam sampleStarted).events.length =
      (openTargets sampleStarted).length ∧
    (get_all_open_targets (finish_track sampleParam sampleStarted).state).2 =
      []) :=
  ⟨by decide, finish_track_closes_all sampleParam sampleStarted (by decide)⟩

theorem begin_track_creates_all_witness :
    (initialState.phase = Phase.Uninit ∧
      (∀ d ∈ [sampleDet 0, sampleDet 100], Detection.valid d = true)) ∧
    ((begin_track sampleParam initialState
        [sampleDet 0, sampleDet 100]).state.targets.length =
          [sampleDet 0, sampleDet 100].length ∧
    (∀ t ∈ (begin_track sampleParam initialState
        [sampleDet 0, sampleDet 100]).state.targets,
        t.tstate = TargetState.Tentative) ∧
    ((begin_track sampleParam initialState
        [sampleDet 0, sampleDet 100]).state.targets.map TrackTarget.id).Nodup ∧
    (get_all_open_targets (begin_track sampleParam initialState
        [sampleDet 0, sampleDet 100]).state).2 =
      (begin_track sampleParam initialState
        [sampleDet 0, sampleDet 100]).state.targets.map (fun t => (t.id, t)) ∧
    (get_all_open_targets (begin_track sampleParam initialState
        [sampleDet 0, sampleDet 100]).state).2.length =
      [sampleDet 0, sampleDet 100].length) :=
  ⟨⟨rfl, by decide⟩,
    begin_track_creates_all sampleParam initialState
      [sampleDet 0, sampleDet 100] rfl (by decide)⟩

theorem sequencing_error_state_unchanged_witness :
    (sampleFinished.phase = Phase.Uninit ∨
      sampleFinished.phase = Phase.Finished) ∧
    (((track sampleParam sampleFinished []).state = sampleFinished ∧
      (track sampleParam sampleFinished []).events = [] ∧
      (track sampleParam sampleFinished []).err =
        some TrackError.SequencingError) ∧
    (sampleFinished.phase = Phase.Finished →
      ((begin_track sampleParam sampleFinished []).state = sampleFinished ∧
        (begin_track sampleParam sampleFinished []).events = [] ∧
        (begin_track sampleParam sampleFinished []).err =
          some TrackError.SequencingError) ∧
      ((finish_track sampleParam sampleFinished).state = sampleFinished ∧
        (finish_track sampleParam sampleFinished).events = [] ∧
        (finish_track sampleParam sampleFinished).err =
          some TrackError.SequencingError))) :=
  ⟨Or.inr (by decide),
    sequencing_error_state_unchanged sampleParam sampleFinished []
      (Or.inr (by decide))⟩

theorem open_snapshot_excludes_closed_witness :
    ((0, newTarget 0 (sampleDet 0)) ∈ (get_all_open_targets sampleStarted).2) ∧
    ((newTarget 0 (sampleDet 0)).tstate ≠ TargetState.Closed ∧
      ((newTarget 0 (sampleDet 0)).tstate = TargetState.Tentative ∨
        (newTarget 0 (sampleDet 0)).tstate = TargetState.Confirmed ∨
        (newTarget 0 (sampleDet 0)).tstate = TargetState.Lost)) :=
  ⟨by decide,
    open_snapshot_excludes_closed sampleStarted
      (0, newTarget 0 (sampleDet 0)) (by decide)⟩

theorem updateOpenAux_length (p : TrackerParam) (dets : List Detection)
    (ms : List (Nat × Nat)) (k : Nat) (ts : List TrackTarget) :
    (updateOpenAux p dets ms k ts).length = ts.length := by
  induction ts generalizing k with
  | nil => rfl
  | cons t ts ih => simp [updateOpenAux, ih]

theorem updateOpenAux_getD (p : TrackerParam) (dets : List Detection)
    (ms : List (Nat × Nat)) (k i : Nat) (ts : List TrackTarget)
    (hi : i < ts.length) :
    (updateOpenAux p dets ms k ts).getD i default =
      (match lookupMatch ms (k + i) with
       | some j => applyMatched p (ts.getD i default) (dets.getD j default)
       | none => applyUnmatched p (ts.getD i default)) := by
  induction ts generalizing k i with
  | nil => exact absurd hi (Nat.not_lt_zero i)
  | cons t ts ih =>
    cases i with
    | zero => simp [updateOpenAux]
    | succ i2 =>
      have hi2 : i2 < ts.length := Nat.lt_of_succ_lt_succ hi
      simp only [updateOpenAux, List.getD_cons_succ]
      rw [ih (k + 1) i2 hi2]
      have harith : k + 1 + i2 = k + (i2 + 1) := by omega
      rw [harith]

theorem lookupMatch_isSome_iff (ms : List (Nat × Nat)) (i : Nat) :
    (∃ j, lookupMatch ms i = some j) ↔ i ∈ ms.map Prod.fst := by
  induction ms with
  | nil => simp [lookupMatch]
  | cons pr rest ih =>
    obtain ⟨a, b⟩ := pr
    by_cases ha : a = i
    · subst ha
      simp [lookupMatch]
    · have ha2 : ¬i = a := fun hh => ha hh.symm
      simp [lookupMatch, ha, ha2, ih]

theorem getD_append_left (l l2 : List TrackTarget) (i : Nat)
    (hi : i < l.length) : (l ++ l2).getD i default = l.getD i default := by
  induction l generalizing i with
  | nil => exact absurd hi (Nat.not_lt_zero i)
  | cons t ts ih =>
    cases i with
    | zero => rfl
    | succ i2 => exact ih i2 (Nat.lt_of_succ_lt_succ hi)

/-- C3: in a `track` frame, the open target at position i is updated with
its miss counter reset to zero exactly when the solver matched index i,
and with its miss counter incremented by one (a strict increase) when
index i went unmatched. -/
theorem track_miss_counter (p : TrackerParam) (s : TrackerState)
    (dets : List Detection) (h : s.phase = Phase.Started) (i : Nat)
    (hi : i < (openTargets s).length) :
    (i ∈ (trackMatches p s dets).map Prod.fst →
      ((track p s dets).state.targets.getD i default).missCount = 0) ∧
    (i ∉ (trackMatches p s dets).map Prod.fst →
      ((track p s dets).state.targets.getD i default).missCount =
        ((openTargets s).getD i default).missCount + 1) := by
  have htrack : track p s dets = track_go p s dets := by simp [track, h]
  have hlen : i < (trackOpensUpdated p s dets).length := by
    rw [trackOpensUpdated, updateOpenAux_length]
    exact hi
  have hgetD : (track p s dets).state.targets.getD i default =
      (trackOpensUpdated p s dets).getD i default := by
    rw [htrack, track_go]
    rw [List.append_assoc]
    exact getD_append_left _ _ i hlen
  have hupd := updateOpenAux_getD p (validOf dets) (trackMatches p s dets)
    0 i (openTargets s) hi
  simp only [Nat.zero_add] at hupd
  constructor
  · intro hmem
    rcases (lookupMatch_isSome_iff (trackMatches p s dets) i).mpr hmem
      with ⟨j, hj⟩
    rw [hgetD, trackOpensUpdated, hupd, hj]
    rfl
  · intro hmem
    have hnone : lookupMatch (trackMatches p s dets) i = none := by
      cases hcase : lookupMatch (trackMatches p s dets) i with
      | none => rfl
      | some j =>
        exact absurd ((lookupMatch_isSome_iff _ _).mp ⟨j, hcase⟩) hmem
    rw [hgetD, trackOpensUpdated, hupd, hnone]
    rfl

theorem inv_of_new (p : TrackerParam) (t : TrackTarget)
    (h1 : t.tstate = TargetState.Tentative) (h2 : t.missCount = 0)
    (ph : Phase) (hph : ph ≠ Phase.Finished) : phaseTargetInv p ph t := by
  simp [phaseTargetInv, h1, h2, hph]

theorem phaseTargetInv_applyMatched (p : TrackerParam) (t : TrackTarget)
    (d : Detection) : phaseTargetInv p Phase.Started (applyMatched p t d) := by
  by_cases hc : p.confirmK ≤ t.hitStreak + 1 <;>
    simp [phaseTargetInv, applyMatched, hc]

theorem phaseTargetInv_applyUnmatched (p : TrackerParam) (t : TrackTarget) :
    phaseTargetInv p Phase.Started (applyUnmatched p t) := by
  by_cases hc : p.retireThreshold < t.missCount + 1 <;>
    simp [phaseTargetInv, applyUnmatched, hc]

theorem mem_updateOpenAux (p : TrackerParam) (dets : List Detection)
    (ms : List (Nat × Nat)) (k : Nat) (ts : List TrackTarget)
    (t2 : TrackTarget) (h : t2 ∈ updateOpenAux p dets ms k ts) :
    ∃ t ∈ ts, (∃ j, t2 = applyMatched p t (dets.getD j default)) ∨
      t2 = applyUnmatched p t := by
  induction ts generalizing k with
  | nil => cases h
  | cons a ts ih =>
    simp only [updateOpenAux] at h
    rcases List.mem_cons.mp h with heq | hmem
    · refine ⟨a, List.mem_cons_self a ts, ?_⟩
      cases hl : lookupMatch ms k with
      | some j =>
        rw [hl] at heq
        exact Or.inl ⟨j, heq⟩
      | none =>
        rw [hl] at heq
        exact Or.inr heq
    · rcases ih (k + 1) hmem with ⟨t, ht, hcase⟩
      exact ⟨t, List.mem_cons_of_mem a ht, hcase⟩

theorem stateInv_begin (p : TrackerParam) (s : TrackerState)
    (dets : List Detection)
    (h : ∀ t ∈ s.targets, phaseTargetInv p s.phase t) :
    ∀ t ∈ (begin_track p s dets).state.targets,
      phaseTargetInv p (begin_track p s dets).state.phase t := by
  by_cases hp : s.phase = Phase.Uninit
  · intro t ht
    simp only [begin_track, hp, if_true] at ht ⊢
    obtain ⟨h1, h2, _⟩ := mem_mkNewTargets _ _ _ ht
    exact inv_of_new p t h1 h2 Phase.Started (by simp)
  · intro t ht
    simp only [begin_track, hp, if_false, seqError] at ht ⊢
    exact h t ht

theorem stateInv_track (p : TrackerParam) (s : TrackerState)
    (dets : List Detection)
    (h : ∀ t ∈ s.targets, phaseTargetInv p s.phase t) :
    ∀ t ∈ (track p s dets).state.targets,
      phaseTargetInv p (track p s dets).state.phase t := by
  by_cases hp : s.phase = Phase.Started
  · intro t ht
    have htg : track p s dets = track_go p s dets := by simp [track, hp]
    rw [htg] at ht ⊢
    simp only [track_go] at ht ⊢
    rcases List.mem_append.mp ht with hAB | hC
    · rcases List.mem_append.mp hAB with hA | hB
      · rw [trackOpensUpdated] at hA
        rcases mem_updateOpenAux _ _ _ _ _ _ hA with ⟨a, _, hcase⟩
        rcases hcase with ⟨j, rfl⟩ | rfl
        · exact phaseTargetInv_applyMatched p a _
        · exact phaseTargetInv_applyUnmatched p a
      · have hmem := List.mem_filter.mp hB
        exact hp ▸ h t hmem.1
    · rw [trackNewTargets] at hC
      obtain ⟨h1, h2, _⟩ := mem_mkNewTargets _ _ _ hC
      exact inv_of_new p t h1 h2 Phase.Started (by simp)
  · intro t ht
    simp only [track, hp, if_false, seqError] at ht ⊢
    exact h t ht

theorem stateInv_finish (p : TrackerParam) (s : TrackerState)
    (h : ∀ t ∈ s.targets, phaseTargetInv p s.phase t) :
    ∀ t ∈ (finish_track p s).state.targets,
      phaseTargetInv p (finish_track p s).state.phase t := by
  by_cases hp : s.phase = Phase.Started
  · intro t ht
    simp only [finish_track, hp, if_true] at ht ⊢
    rcases List.mem_map.mp ht with ⟨a, _, rfl⟩
    simp [phaseTargetInv, closeTarget]
  · intro t ht
    simp only [finish_track, hp, if_false, seqError] at ht ⊢
    exact h t ht

theorem stateInv_reachable (p : TrackerParam) (s : TrackerState)
    (hr : Reachable p s) : ∀ t ∈ s.targets, phaseTargetInv p s.phase t := by
  induction hr with
  | init => intro t2 ht2; cases ht2
  | begin_step s2 dets _ ih => exact stateInv_begin p s2 dets ih
  | track_step s2 dets _ ih => exact stateInv_track p s2 dets ih
  | finish_step s2 _ ih => exact stateInv_finish p s2 ih

/-- C2: in every reachable tracker state, a target is Closed exactly when
its miss counter has exceeded the retirement threshold or a successful
`finish_track` call has been made (the tracker is in the Finished phase);
no other operation moves a target to Closed. -/
theorem target_closed_iff_retired_or_finished (p : TrackerParam)
    (s : TrackerState) (hr : Reachable p s) (t : TrackTarget)
    (ht : t ∈ s.targets) :
    t.tstate = TargetState.Closed ↔
      (p.retireThreshold < t.missCount ∨ s.phase = Phase.Finished) :=
  stateInv_reachable p s hr t ht

theorem target_closed_iff_retired_or_finished_witness :
    (Reachable sampleParam sampleStarted ∧
      newTarget 0 (sampleDet 0) ∈ sampleStarted.targets) ∧
    ((newTarget 0 (sampleDet 0)).tstate = TargetState.Closed ↔
      (sampleParam.retireThreshold < (newTarget 0 (sampleDet 0)).missCount ∨
        sampleStarted.phase = Phase.Finished)) :=
  ⟨⟨Reachable.begin_step initialState [sampleDet 0, sampleDet 100]
      Reachable.init, by decide⟩,
    target_closed_iff_retired_or_finished sampleParam sampleStarted
      (Reachable.begin_step initialState [sampleDet 0, sampleDet 100]
        Reachable.init)
      (newTarget 0 (sampleDet 0)) (by decide)⟩

theorem track_miss_counter_witness :
    (sampleStarted.phase = Phase.Started ∧
      0 < (openTargets sampleStarted).length) ∧
    ((0 ∈ (trackMatches sampleParam sampleStarted [sampleDet 1]).map
        Prod.fst →
      ((track sampleParam sampleStarted
          [sampleDet 1]).state.targets.getD 0 default).missCount = 0) ∧
    (0 ∉ (trackMatches sampleParam sampleStarted [sampleDet 1]).map
        Prod.fst →
      ((track sampleParam sampleStarted
          [sampleDet 1]).state.targets.getD 0 default).missCount =
        ((openTargets sampleStarted).getD 0 default).missCount + 1)) :=
  ⟨⟨by decide, by decide⟩,
    track_miss_counter sampleParam sampleStarted [sampleDet 1] (by decide)
      0 (by decide)⟩

theorem solver_excludes_prohibitive_witness :
    ((0, 0) ∈ greedyAssign allProhibitive (List.range 1) (List.range 1) ∧
      allProhibitive 0 0 = PROHIBITIVE_COST) ∧
    (((0, 0) ∉ (solveAssignment allProhibitive 1 1).matched) ∧
      0 ∈ (solveAssignment allProhibitive 1 1).unmatchedTargets ∧
      0 ∈ (solveAssignment allProhibitive 1 1).unmatchedDetections ∧
      (∀ pr ∈ (solveAssignment allProhibitive 1 1).matched,
        allProhibitive pr.1 pr.2 ≠ PROHIBITIVE_COST)) :=
  ⟨⟨by decide, rfl⟩,
    solver_excludes_prohibitive allProhibitive 1 1 0 0 (by decide) rfl⟩

end RedoxiTrack
